import Mathlib

/-!
# Verification of the `fastembed-rs` text-embedding pipeline

A shallow embedding of `src/text_embedding.rs` (the `TextEmbedding` model:
batch planning, tensor construction, session invocation, output selection,
pooling dispatch and normalization), together with models of the crate
items it uses that live outside that file (`OutputKey`, `Pooling`,
`SingleBatchOutput::select_and_pool_output`, `normalize`), which are
modelled from the specification.

Machine floats are idealized as rationals (for the tensor data, which the
pipeline only moves around) and reals (for the final normalization, which
divides by a Euclidean norm).  Rust panics (`unwrap`, out-of-bounds
indexing, `par_chunks(0)`) are modelled as an explicit `panicked` outcome,
distinct from returned `Err` values.
-/

namespace Fastembed

/-- The error taxonomy of the pipeline (the Rust code carries `anyhow`
errors; the constructors follow the failure sites). -/
inductive EmbedError
  | tokenization
  /-- `ndarray::Array::from_shape_vec` length mismatch. -/
  | shape
  /-- An error returned by `ort`'s `Session::run`. -/
  | inference (msg : String)
  /-- No output-key precedence rule matched. -/
  | outputNotFound
  /-- The selected output tensor has a rank other than 2 or 3. -/
  | unsupportedShape (shape : List Nat)
  deriving DecidableEq, Repr

/-- The result of running a pipeline entry point: a returned value, a
returned error, or a Rust panic (which is not a returned value at all). -/
inductive RunOutcome (α : Type)
  | ok (val : α)
  | err (e : EmbedError)
  | panicked (msg : String)
  deriving DecidableEq, Repr

/-- Lift a returned `Result` into a `RunOutcome` (no panic involved). -/
def exceptToOutcome {α : Type} : Except EmbedError α → RunOutcome α
  | .ok a => .ok a
  | .error e => .err e

/-- One tokenized text: the three equal-length sequences produced by the
tokenizer (`get_ids`, `get_attention_mask`, `get_type_ids`), already taken
as integers (the Rust code casts the `u32` values to `i64`). -/
structure Encoding where
  ids : List ℤ
  attention_mask : List ℤ
  type_ids : List ℤ
  deriving DecidableEq, Repr

/-- `tokenizers::Encoding::len`: the (padded) sequence length. -/
def Encoding.len (e : Encoding) : Nat := e.ids.length

/-- The external tokenizer capability: `encode_batch(texts, add_special_tokens)`. -/
structure Tokenizer where
  encode_batch : List String → Bool → Except EmbedError (List Encoding)

/-- A rank-2 row-major integer tensor, as built by
`ndarray::Array::from_shape_vec((rows, cols), data)`. -/
structure Tensor2 where
  rows : Nat
  cols : Nat
  data : List ℤ
  deriving DecidableEq, Repr

/-- A named-output float tensor of dynamic rank (`ndarray` `IxDyn`),
row-major. -/
structure TensorF where
  shape : List Nat
  data : List ℚ
  deriving DecidableEq, Repr

/-- Number of axes, as `ndarray`'s `Dimension::ndim`. -/
def TensorF.ndim (t : TensorF) : Nat := t.shape.length

/-- The external inference session: the input names declared by the loaded
graph, and the `run` call mapping named input tensors to named output
tensors (or an inference error). -/
structure Session where
  inputs : List String
  run : List (String × Tensor2) → Except EmbedError (List (String × TensorF))

/-- Modelled from the spec: `crate::pooling::Pooling`, the closed
enumeration of pooling strategies dispatched on the resolved tensor rank
(the "None" of the spec is the absence of a strategy, `Option.none`). -/
inductive Pooling
  | Cls
  | Mean
  deriving DecidableEq, Repr

/-- Modelled from the spec: `crate::OutputKey`, an output-key rule:
"sole output" or "exact name match". -/
inductive OutputKey
  | OnlyOne
  | ByName (name : String)
  deriving DecidableEq, Repr

/-- Modelled from the spec: one rule's match against the named outputs.
"Sole output" matches iff exactly one output exists; "exact name" matches
iff that name is present (first entry of that name). -/
def matchKey (outputs : List (String × TensorF)) : OutputKey → Option TensorF
  | .OnlyOne =>
      match outputs with
      | [o] => some o.2
      | _ => none
  | .ByName name => (outputs.find? (fun p => p.1 == name)).map (fun p => p.2)

/-- Modelled from the spec: the Output Key Resolver. Given named outputs
and an ordered rule list, returns the first matching tensor; fails with
`OutputNotFoundError` if nothing matches. -/
def select_output (outputs : List (String × TensorF)) :
    List OutputKey → Except EmbedError TensorF
  | [] => .error .outputNotFound
  | key :: rest =>
      match matchKey outputs key with
      | some t => .ok t
      | none => select_output outputs rest

/-- Rows of a rank-2 tensor of rationals (`ndarray`'s `.rows()`). -/
def TensorF.rows2 (t : TensorF) : List (List ℚ) :=
  match t.shape with
  | [r, c] => (List.range r).map (fun i => (t.data.drop (i * c)).take c)
  | _ => []

/-- The `s![.., 0, ..]` slice of a rank-3 tensor, as a list of rows:
the token-index-0 vector of every row. -/
def TensorF.slice0 (t : TensorF) : List (List ℚ) :=
  match t.shape with
  | [b, s, h] => (List.range b).map (fun i => (t.data.drop (i * (s * h))).take h)
  | _ => []

/-- A rank-3 tensor as a list of rows, each row a list of token vectors. -/
def TensorF.rows3 (t : TensorF) : List (List (List ℚ)) :=
  match t.shape with
  | [b, s, h] =>
      (List.range b).map (fun i =>
        (List.range s).map (fun j => (t.data.drop (i * (s * h) + j * h)).take h))
  | _ => []

/-- Rows of the rank-2 integer attention-mask tensor. -/
def Tensor2.rowsOf (t : Tensor2) : List (List ℤ) :=
  (List.range t.rows).map (fun i => (t.data.drop (i * t.cols)).take t.cols)

/-- Pointwise sum of two vectors. -/
def vecAdd (a b : List ℚ) : List ℚ := List.zipWith (· + ·) a b

/-- Modelled from the spec: the masked mean of one row. "Average token
vectors over positions where mask = 1, excluding masked positions from
both sum and divisor." -/
def meanPoolRow (tokens : List (List ℚ)) (mask : List ℤ) : List ℚ :=
  let kept := ((tokens.zip mask).filter (fun p => p.2 == 1)).map (fun p => p.1)
  match kept with
  | [] => []
  | v :: vs => (vs.foldl vecAdd v).map (fun x => x / (kept.length : ℚ))

/-- Modelled from the spec: the Pooling Engine. Rank 2: rows as-is (the
mode is informational only). Rank 3 with `Cls`: token index 0 per row.
Rank 3 with `Mean`: masked mean per row. Absent mode: the tensor is
passed through unchanged (the rank is dispatched downstream). Any other
rank with a mode fails with `UnsupportedShapeError`. -/
def pool (t : TensorF) (mask : Tensor2) : Option Pooling → Except EmbedError TensorF
  | none => .ok t
  | some p =>
      match t.shape, p with
      | [_, _], _ => .ok t
      | [b, _, h], .Cls => .ok ⟨[b, h], t.slice0.flatten⟩
      | [b, _, h], .Mean =>
          .ok ⟨[b, h], ((t.rows3.zip mask.rowsOf).map
            (fun p => meanPoolRow p.1 p.2)).flatten⟩
      | _, _ => .error (.unsupportedShape t.shape)

/-- One batch's raw session outputs together with that batch's
attention-mask tensor (`crate::SingleBatchOutput`). -/
structure SingleBatchOutput where
  session_outputs : List (String × TensorF)
  attention_mask_array : Tensor2

/-- Modelled from the spec: `SingleBatchOutput::select_and_pool_output`:
resolve the output tensor by precedence, then pool it against this
batch's attention mask. -/
def SingleBatchOutput.select_and_pool_output (b : SingleBatchOutput)
    (precedence : List OutputKey) (pooling : Option Pooling) :
    Except EmbedError TensorF :=
  (select_output b.session_outputs precedence).bind
    (fun t => pool t b.attention_mask_array pooling)

/-- Modelled from the spec: `crate::EmbeddingOutput`, the holder of the
per-batch outputs of `transform`. -/
structure EmbeddingOutput where
  batches : List SingleBatchOutput

def EmbeddingOutput.new (batches : List SingleBatchOutput) : EmbeddingOutput :=
  ⟨batches⟩

/-- Modelled from the spec: apply an array transformer to the collected
batches. -/
def EmbeddingOutput.export_with_transformer {α : Type}
    (eo : EmbeddingOutput)
    (transformer : List SingleBatchOutput → Except EmbedError α) :
    Except EmbedError α :=
  transformer eo.batches

/-- Sum of squares of a vector (the square of its Euclidean norm). -/
def sumSq (v : List ℚ) : ℚ := (v.map (fun x => x * x)).sum

/-- Modelled from the spec: `crate::common::normalize`, the Normalizer —
"divides every vector component by its Euclidean norm". -/
noncomputable def normalize (v : List ℚ) : List ℝ :=
  v.map (fun x => (x : ℝ) / Real.sqrt ((sumSq v : ℚ) : ℝ))

/-- A returned embedding: a vector of (idealized) floats. -/
abbrev Embedding := List ℝ

/-- The default output precedence for the `TextEmbedding` model
(`output::OUTPUT_TYPE_PRECENDENCE`, name kept as in the source). -/
def OUTPUT_TYPE_PRECENDENCE : List OutputKey :=
  [OutputKey.OnlyOne,
   OutputKey.ByName ("last_hidden_state"),
   OutputKey.ByName ("sentence_embedding")]

/-- The per-batch closure inside `output::transformer_with_precedence`:
select-and-pool the batch's output, then dispatch on its rank — a rank-2
tensor's rows are normalized as-is, a rank-3 tensor contributes the
normalized token-index-0 vector of each row (`s![.., 0, ..]`), any other
rank is an error. -/
noncomputable def transformer_single
    (precedence : List OutputKey) (pooling : Option Pooling)
    (batch : SingleBatchOutput) : Except EmbedError (List Embedding) :=
  (batch.select_and_pool_output precedence pooling).bind
    (fun array =>
      match array.ndim with
      | 2 => .ok (array.rows2.map normalize)
      | 3 => .ok (array.slice0.map normalize)
      | _ => .error (.unsupportedShape array.shape))

/-- `output::transformer_with_precedence`: map the per-batch closure over
the batches and concatenate the per-batch vectors in batch order
(`try_fold`), so the first failing batch aborts the whole export. -/
noncomputable def transformer_with_precedence
    (precedence : List OutputKey) (pooling : Option Pooling)
    (batches : List SingleBatchOutput) : Except EmbedError (List Embedding) :=
  (batches.map (transformer_single precedence pooling)).foldlM
    (fun acc res => res.map (fun rows => acc ++ rows)) []

/-- The `TextEmbedding` model: tokenizer, optional pooling strategy,
session, and the construction-time flag recording whether the graph
declares a `token_type_ids` input. -/
structure TextEmbedding where
  tokenizer : Tokenizer
  pooling : Option Pooling
  session : Session
  need_token_type_ids : Bool

/-- `TextEmbedding::new`: the `token_type_ids` flag is computed once from
the session's declared input names. -/
def TextEmbedding.new (tokenizer : Tokenizer) (session : Session)
    (post_process : Option Pooling) : TextEmbedding :=
  { tokenizer := tokenizer
    session := session
    need_token_type_ids := session.inputs.any (fun n => n == "token_type_ids")
    pooling := post_process }

def DEFAULT_BATCH_SIZE : Nat := 256

/-- `rayon`'s `par_chunks(B)`: contiguous chunks of size `B`, the last one
possibly shorter. (`par_chunks` itself panics on `B = 0`; the guard lives
at the call site in `transform`, the `B = 0` case here is dead.) -/
def chunksOf {α : Type} (B : Nat) (l : List α) : List (List α) :=
  if h : l.length = 0 ∨ B = 0 then []
  else l.take B :: chunksOf B (l.drop B)
termination_by l.length
decreasing_by
  simp only [not_or] at h
  have hl : 0 < l.length := Nat.pos_of_ne_zero h.1
  have hB : 0 < B := Nat.pos_of_ne_zero h.2
  simpa [List.length_drop] using Nat.sub_lt hl hB

/-- `ndarray::Array::from_shape_vec((rows, cols), v)`: succeeds iff the
data length matches the shape. -/
def from_shape_vec (rows cols : Nat) (v : List ℤ) : Except EmbedError Tensor2 :=
  if v.length = rows * cols then .ok ⟨rows, cols, v⟩ else .error .shape

/-- The named inputs handed to `Session::run` for one batch: `input_ids`
and `attention_mask` always, and `token_type_ids` exactly when the flag
set at construction says the graph declares it. -/
def sessionInputs (te : TextEmbedding)
    (inputs_ids_array attention_mask_array token_type_ids_array : Tensor2) :
    List (String × Tensor2) :=
  [("input_ids", inputs_ids_array), ("attention_mask", attention_mask_array)]
    ++ (if te.need_token_type_ids then [("token_type_ids", token_type_ids_array)] else [])

/-- The fallible tail of the per-batch closure in `transform`: build the
three `(batch_size, encoding_length)` tensors from the flattened
encodings, run the session on the (conditionally extended) inputs, and
package the outputs with the attention-mask tensor. -/
def TextEmbedding.runBatch (te : TextEmbedding) (batch : List String)
    (encodings : List Encoding) (encoding_length : Nat) :
    Except EmbedError SingleBatchOutput := do
  let batch_size := batch.length
  let ids_array := (encodings.map (fun e => e.ids)).flatten
  let mask_array := (encodings.map (fun e => e.attention_mask)).flatten
  let typeids_array := (encodings.map (fun e => e.type_ids)).flatten
  let inputs_ids_array ← from_shape_vec batch_size encoding_length ids_array
  let attention_mask_array ← from_shape_vec batch_size encoding_length mask_array
  let token_type_ids_array ← from_shape_vec batch_size encoding_length typeids_array
  let session_outputs ←
    te.session.run (sessionInputs te inputs_ids_array attention_mask_array token_type_ids_array)
  pure { session_outputs := session_outputs
         attention_mask_array := attention_mask_array }

/-- The whole per-batch closure of `transform`.  The tokenizer result is
`unwrap`ped — an encoding failure is a panic, not a returned error — and
`encodings[0]` panics on an empty encoding list. -/
def TextEmbedding.transformBatch (te : TextEmbedding) (batch : List String) :
    RunOutcome SingleBatchOutput :=
  match te.tokenizer.encode_batch batch true with
  | .error _ => .panicked ("called unwrap on an Err value")
  | .ok encodings =>
      match encodings with
      | [] => .panicked ("index out of bounds")
      | e0 :: _ => exceptToOutcome (te.runBatch batch encodings e0.len)

/-- The fan-in of the per-batch results (`from_par_iter` into a
`Result`): the first panic or error aborts the collection. -/
def collectOutcomes {α : Type} : List (RunOutcome α) → RunOutcome (List α)
  | [] => .ok []
  | o :: rest =>
      match o with
      | .panicked m => .panicked m
      | .err e => .err e
      | .ok a =>
          match collectOutcomes rest with
          | .ok l => .ok (a :: l)
          | .err e => .err e
          | .panicked m => .panicked m

/-- `TextEmbedding::transform`: split the texts into chunks of the batch
size (default 256), process every chunk, and collect the per-batch
outputs. -/
def TextEmbedding.transform (te : TextEmbedding) (texts : List String)
    (batch_size : Option Nat) : RunOutcome EmbeddingOutput :=
  let B := batch_size.getD DEFAULT_BATCH_SIZE
  if B = 0 then .panicked ("chunk size must not be zero")
  else
    match collectOutcomes ((chunksOf B texts).map te.transformBatch) with
    | .ok batches => .ok (EmbeddingOutput.new batches)
    | .err e => .err e
    | .panicked m => .panicked m

/-- `TextEmbedding::embed`: `transform`, then export with the default
precedence and the model's pooling strategy. -/
noncomputable def TextEmbedding.embed (te : TextEmbedding) (texts : List String)
    (batch_size : Option Nat) : RunOutcome (List Embedding) :=
  match te.transform texts batch_size with
  | .ok batches =>
      exceptToOutcome (batches.export_with_transformer
        (transformer_with_precedence OUTPUT_TYPE_PRECENDENCE te.pooling))
  | .err e => .err e
  | .panicked m => .panicked m

/-! ## Stub models used by the claim theorems and witnesses -/

/-- A session whose graph does not declare `token_type_ids`. -/
def sessionNoTypeIds : Session :=
  ⟨["input_ids", "attention_mask"], fun _ => .ok []⟩

/-- A tokenizer whose encodings have consistent ids/mask but an
inconsistent (empty) `type_ids` sequence. -/
def badTypeIdsTokenizer : Tokenizer :=
  ⟨fun ts _ => .ok (ts.map (fun _ => ⟨[5], [1], []⟩))⟩

def teNoTypeIds : TextEmbedding :=
  TextEmbedding.new badTypeIdsTokenizer sessionNoTypeIds none

/-- A tokenizer that cannot encode any input. -/
def failingTokenizer : Tokenizer := ⟨fun _ _ => .error .tokenization⟩

def teFailingTok : TextEmbedding :=
  TextEmbedding.new failingTokenizer sessionNoTypeIds none

/-- A tokenizer mapping the text `"b"` to token id 2 and everything else
to token id 1, with full attention. -/
def twoTokenizer : Tokenizer :=
  ⟨fun ts _ => .ok (ts.map (fun t => if t = "b" then ⟨[2], [1], [0]⟩ else ⟨[1], [1], [0]⟩))⟩

/-- A deterministic stub engine that fails on the batch holding token
id 2 and answers every other batch with a rank-2 output. -/
def failOnTokenTwo : Session :=
  ⟨["input_ids", "attention_mask"],
   fun ins =>
     match ins with
     | ("input_ids", ids) :: _ =>
         if ids.data = [2] then .error (.inference ("boom"))
         else .ok [(("output"), ⟨[1, 1], [7]⟩)]
     | _ => .error (.inference ("missing input_ids"))⟩

def teTwoBatch : TextEmbedding :=
  TextEmbedding.new twoTokenizer failOnTokenTwo none

/-- A tokenizer that encodes each text independently via `encOne`. -/
def perRowTokenizer (encOne : String → Encoding) : Tokenizer :=
  ⟨fun ts _ => .ok (ts.map encOne)⟩

/-- A deterministic stub engine computing each output row as a function
`f` of that row of `input_ids` alone (the per-row external contract of
the Inference Invoker). -/
def perRowSession (f : List ℤ → List ℚ) (H : Nat) : Session :=
  ⟨["input_ids", "attention_mask"],
   fun ins =>
     match ins with
     | ("input_ids", ids) :: _ =>
         .ok [(("output"), ⟨[ids.rows, H], ((ids.rowsOf.map f).flatten)⟩)]
     | _ => .error (.inference ("missing input_ids"))⟩

def perRowTE (encOne : String → Encoding) (f : List ℤ → List ℚ) (H : Nat) :
    TextEmbedding :=
  TextEmbedding.new (perRowTokenizer encOne) (perRowSession f H) none

/-- The `SingleBatchOutput` the per-row model produces for one chunk. -/
def perRowSBO (encOne : String → Encoding) (f : List ℤ → List ℚ) (H L : Nat)
    (c : List String) : SingleBatchOutput :=
  ⟨[(("output"), ⟨[c.length, H], ((c.map (fun t => f (encOne t).ids)).flatten)⟩)],
   ⟨c.length, L, ((c.map (fun t => (encOne t).attention_mask)).flatten)⟩⟩

/-- A constant stub tokenizer encoding for the C4 witness. -/
def encConst : String → Encoding := fun _ => ⟨[5], [1], [0]⟩

/-- A per-row stub engine function for the C4 witness. -/
def fHead : List ℤ → List ℚ := fun r => [((r.headD 0 : ℤ) : ℚ)]

/-! ## Helper lemmas -/

theorem select_output_nil (outputs : List (String × TensorF)) :
    select_output outputs [] = .error .outputNotFound := rfl

theorem select_output_cons_some {outputs : List (String × TensorF)}
    {key : OutputKey} {rest : List OutputKey} {t : TensorF}
    (h : matchKey outputs key = some t) :
    select_output outputs (key :: rest) = .ok t := by
  simp [select_output, h]

theorem select_output_cons_none {outputs : List (String × TensorF)}
    {key : OutputKey} {rest : List OutputKey}
    (h : matchKey outputs key = none) :
    select_output outputs (key :: rest) = select_output outputs rest := by
  simp [select_output, h]

theorem select_output_no_match {outputs : List (String × TensorF)}
    {precedence : List OutputKey}
    (h : ∀ key ∈ precedence, matchKey outputs key = none) :
    select_output outputs precedence = .error .outputNotFound := by
  induction precedence with
  | nil => rfl
  | cons k ks ih =>
      rw [select_output_cons_none (h k (by simp))]
      exact ih (fun key hm => h key (by simp [hm]))

theorem rows_of_flatten {α : Type} {c : Nat} :
    ∀ ls : List (List α), (∀ l ∈ ls, l.length = c) →
      (List.range ls.length).map (fun i => ((ls.flatten).drop (i * c)).take c) = ls := by
  intro ls
  induction ls with
  | nil => intro _; rfl
  | cons a as ih =>
      intro h
      have ha : a.length = c := h a (by simp)
      rw [List.length_cons, List.range_succ_eq_map, List.map_cons, List.map_map]
      have h0 : (((a :: as).flatten).drop (0 * c)).take c = a := by
        simp only [Nat.zero_mul, List.drop_zero, List.flatten_cons]
        exact List.take_left' ha
      rw [h0]
      have hfun : ∀ i ∈ List.range as.length,
          ((fun i => (((a :: as).flatten).drop (i * c)).take c) ∘ Nat.succ) i
            = ((as.flatten).drop (i * c)).take c := by
        intro i _
        simp only [Function.comp_apply, List.flatten_cons, Nat.succ_mul, ← ha]
        rw [Nat.add_comm, List.drop_append]
      rw [List.map_congr_left hfun, ih (fun l hl => h l (by simp [hl]))]

theorem chunksOf_nil {α : Type} (B : Nat) : chunksOf B ([] : List α) = [] := by
  unfold chunksOf
  simp

theorem chunksOf_cons {α : Type} {B : Nat} {l : List α} (hB : B ≠ 0) (hl : l ≠ []) :
    chunksOf B l = l.take B :: chunksOf B (l.drop B) := by
  conv_lhs => unfold chunksOf
  simp [hB, hl]

/-! ## Claim theorems -/

/-- C5: output selection evaluates the precedence rules in order and
returns the first matching named tensor; the default precedence is
sole-output, then `last_hidden_state`, then `sentence_embedding`; if no
rule matches, it fails with an `OutputNotFoundError`. -/
theorem c5_output_selection_first_match :
    (OUTPUT_TYPE_PRECENDENCE =
      [OutputKey.OnlyOne, OutputKey.ByName ("last_hidden_state"),
       OutputKey.ByName ("sentence_embedding")]) ∧
    (∀ outputs : List (String × TensorF),
      select_output outputs [] = .error .outputNotFound) ∧
    (∀ (outputs : List (String × TensorF)) (key : OutputKey)
        (rest : List OutputKey) (t : TensorF),
      matchKey outputs key = some t →
      select_output outputs (key :: rest) = .ok t) ∧
    (∀ (outputs : List (String × TensorF)) (key : OutputKey)
        (rest : List OutputKey),
      matchKey outputs key = none →
      select_output outputs (key :: rest) = select_output outputs rest) ∧
    (∀ (outputs : List (String × TensorF)) (precedence : List OutputKey),
      (∀ key ∈ precedence, matchKey outputs key = none) →
      select_output outputs precedence = .error .outputNotFound) :=
  ⟨rfl, select_output_nil,
   fun _ _ _ _ h => select_output_cons_some h,
   fun _ _ _ h => select_output_cons_none h,
   fun _ _ h => select_output_no_match h⟩

/-- C5 witness: the first-match and no-match clauses evaluated at concrete
inputs. -/
theorem c5_witness :
    select_output [(("sentence_embedding"), (⟨[1, 2], [5, 7]⟩ : TensorF))]
      [OutputKey.OnlyOne] = .ok ⟨[1, 2], [5, 7]⟩ ∧
    select_output ([] : List (String × TensorF)) OUTPUT_TYPE_PRECENDENCE
      = .error .outputNotFound :=
  ⟨c5_output_selection_first_match.2.2.1 _ OutputKey.OnlyOne [] _ rfl,
   c5_output_selection_first_match.2.2.2.2 _ _ (by decide)⟩

/-- C1 counterexample: with outputs
`{"sentence_embedding" ↦ X, "last_hidden_state" ↦ Y}` and the default
precedence, selection returns `Y` (the `last_hidden_state` tensor), not
`X`, because the precedence lists `last_hidden_state` first. -/
theorem c1_counterexample :
    select_output
      [(("sentence_embedding"), (⟨[1, 2], [1, 0]⟩ : TensorF)),
       (("last_hidden_state"), (⟨[1, 2], [0, 1]⟩ : TensorF))]
      OUTPUT_TYPE_PRECENDENCE = .ok ⟨[1, 2], [0, 1]⟩ ∧
    (⟨[1, 2], [0, 1]⟩ : TensorF) ≠ ⟨[1, 2], [1, 0]⟩ := by
  constructor
  · rfl
  · decide

/-- C1 amended: for model outputs containing exactly the two named tensors
`{"sentence_embedding": X, "last_hidden_state": Y}` (in either order),
output selection under the default precedence always selects `Y`, the
`last_hidden_state` tensor: the sole-output rule does not match two
outputs, and `last_hidden_state` precedes `sentence_embedding` in the
default precedence. -/
theorem c1_amended_selects_last_hidden_state (X Y : TensorF) :
    select_output [(("sentence_embedding"), X), (("last_hidden_state"), Y)]
      OUTPUT_TYPE_PRECENDENCE = .ok Y ∧
    select_output [(("last_hidden_state"), Y), (("sentence_embedding"), X)]
      OUTPUT_TYPE_PRECENDENCE = .ok Y := by
  constructor
  · rfl
  · rfl

/-- C1 amended witness: the amended claim evaluated at concrete tensors. -/
theorem c1_amended_witness :
    select_output
      [(("sentence_embedding"), (⟨[1, 1], [3]⟩ : TensorF)),
       (("last_hidden_state"), (⟨[1, 1], [9]⟩ : TensorF))]
      OUTPUT_TYPE_PRECENDENCE = .ok ⟨[1, 1], [9]⟩ :=
  (c1_amended_selects_last_hidden_state ⟨[1, 1], [3]⟩ ⟨[1, 1], [9]⟩).1

theorem transformer_single_sole_output
    (name : String) (t : TensorF) (mask : Tensor2) :
    (SingleBatchOutput.mk [(name, t)] mask).select_and_pool_output
      OUTPUT_TYPE_PRECENDENCE none = .ok t := rfl

theorem ndim_dispatch_other {α : Type} (t : TensorF) (x y z : α)
    (h2 : t.ndim ≠ 2) (h3 : t.ndim ≠ 3) :
    (match t.ndim with
     | 2 => x
     | 3 => y
     | _ => z) = z := by
  rcases hn : t.ndim with _ | _ | _ | _ | n
  · rfl
  · rfl
  · exact absurd hn h2
  · exact absurd hn h3
  · rfl

/-- C9: if the selected output tensor has a rank other than 2 or 3, the
embedding extraction fails with an `UnsupportedShapeError` and returns no
embeddings. -/
theorem c9_unsupported_shape (name : String) (t : TensorF) (mask : Tensor2)
    (h2 : t.ndim ≠ 2) (h3 : t.ndim ≠ 3) :
    transformer_with_precedence OUTPUT_TYPE_PRECENDENCE none
      [⟨[(name, t)], mask⟩] = .error (.unsupportedShape t.shape) := by
  have hstep : transformer_single OUTPUT_TYPE_PRECENDENCE none
      ⟨[(name, t)], mask⟩ = .error (.unsupportedShape t.shape) := by
    unfold transformer_single
    rw [transformer_single_sole_output]
    show (match t.ndim with
          | 2 => Except.ok (t.rows2.map normalize)
          | 3 => Except.ok (t.slice0.map normalize)
          | _ => Except.error (EmbedError.unsupportedShape t.shape)) = _
    exact ndim_dispatch_other t _ _ _ h2 h3
  simp [transformer_with_precedence, hstep]
  rfl

/-- C9 witness: a rank-1 output tensor makes the extraction fail. -/
theorem c9_witness :
    transformer_with_precedence OUTPUT_TYPE_PRECENDENCE none
      [⟨[(("last_hidden_state"), (⟨[4], [1, 2, 3, 4]⟩ : TensorF))],
        ⟨1, 4, [1, 1, 1, 1]⟩⟩]
      = .error (.unsupportedShape [4]) :=
  c9_unsupported_shape ("last_hidden_state") ⟨[4], [1, 2, 3, 4]⟩
    ⟨1, 4, [1, 1, 1, 1]⟩ (by decide) (by decide)

/-- C6: under Mean pooling, a rank-3 row's pooled vector averages only the
token vectors at mask-1 positions, excluding masked positions from both
the sum and the divisor: mask `[1,1,0]` over token vectors `[a,b,c]`
yields `(a+b)/2` componentwise (not `(a+b+c)/3`). -/
theorem c6_masked_mean (d : Nat) (a b c : List ℚ)
    (ha : a.length = d) (hb : b.length = d) (hc : c.length = d) :
    pool ⟨[1, 3, d], a ++ b ++ c⟩ ⟨1, 3, [1, 1, 0]⟩ (some .Mean)
      = .ok ⟨[1, d], List.zipWith (fun x y => (x + y) / 2) a b⟩ := by
  have h1 : (TensorF.mk [1, 3, d] (a ++ b ++ c)).rows3 = [[a, b, c]] := by
    simp only [TensorF.rows3, List.range_succ, List.range_zero, List.nil_append,
      List.map_append, List.map_cons, List.map_nil, List.cons_append, List.singleton_append,
      Nat.zero_mul, Nat.one_mul, Nat.zero_add, List.drop_zero]
    have e1 : (a ++ b ++ c).take d = a := by
      rw [List.append_assoc]; exact List.take_left' ha
    have e2 : ((a ++ b ++ c).drop d).take d = b := by
      rw [List.append_assoc, List.drop_left' ha]
      exact List.take_left' hb
    have e3 : ((a ++ b ++ c).drop (2 * d)).take d = c := by
      rw [List.append_assoc, show 2 * d = a.length + d by omega, List.drop_append,
        List.drop_left' hb]
      rw [← hc, List.take_length]
    rw [e1, e2, e3]
  have h2 : (Tensor2.mk 1 3 [1, 1, 0]).rowsOf = [[1, 1, 0]] := rfl
  have h3 : meanPoolRow [a, b, c] [1, 1, 0] = List.zipWith (fun x y => (x + y) / 2) a b := by
    show ([b].foldl vecAdd a).map (fun x => x / ((2 : Nat) : ℚ)) = _
    simp only [List.foldl_cons, List.foldl_nil, vecAdd, List.map_zipWith, Nat.cast_ofNat]
  rw [show pool ⟨[1, 3, d], a ++ b ++ c⟩ ⟨1, 3, [1, 1, 0]⟩ (some .Mean)
      = .ok ⟨[1, d],
          ((((TensorF.mk [1, 3, d] (a ++ b ++ c)).rows3.zip
              (Tensor2.mk 1 3 [1, 1, 0]).rowsOf).map
            (fun p => meanPoolRow p.1 p.2)).flatten)⟩ from rfl]
  rw [h1, h2]
  simp [h3]

/-- C6 witness: the masked mean at a concrete input —
tokens `[[1],[3],[5]]`, mask `[1,1,0]` pool to `[(1+3)/2] = [2]`. -/
theorem c6_witness :
    pool ⟨[1, 3, 1], [1, 3, 5]⟩ ⟨1, 3, [1, 1, 0]⟩ (some .Mean)
      = .ok ⟨[1, 1], [2]⟩ := by
  have h := c6_masked_mean 1 [1] [3] [5] rfl rfl rfl
  simpa [show ((1 : ℚ) + 3) / 2 = 2 by norm_num] using h

theorem slice0_spec {b s h : Nat} {data : List ℚ}
    (hs : 1 ≤ s) (hd : data.length = b * (s * h)) :
    (TensorF.mk [b, s, h] data).slice0.length = b ∧
    ∀ v ∈ (TensorF.mk [b, s, h] data).slice0, v.length = h := by
  constructor
  · simp [TensorF.slice0]
  · intro v hv
    simp only [TensorF.slice0, List.mem_map, List.mem_range] at hv
    obtain ⟨i, hi, rfl⟩ := hv
    rw [List.length_take, List.length_drop, hd]
    have hle : i * (s * h) + h ≤ b * (s * h) := by
      have hh : h ≤ s * h := Nat.le_mul_of_pos_left h hs
      calc i * (s * h) + h ≤ i * (s * h) + s * h := by omega
        _ = (i + 1) * (s * h) := by ring
        _ ≤ b * (s * h) := Nat.mul_le_mul_right (s * h) hi
    omega

/-- C8: for a rank-3 `(batch, seq_len, hidden_dim)` output under `Cls`
pooling or the default token-level handling (no pooling strategy), each
row's embedding is the L2-normalization of its token-index-0 vector; in
particular the single-text stub output `[[[1,2,3,4]]]` with mask `[1]`
yields the embedding `[1,2,3,4]/√30`. -/
theorem c8_cls_token_rank3 (name : String) (T : TensorF) (M : Tensor2)
    (b s h : Nat) (hsh : T.shape = [b, s, h]) (hs : 1 ≤ s)
    (hd : T.data.length = b * (s * h)) :
    (transformer_with_precedence OUTPUT_TYPE_PRECENDENCE none [⟨[(name, T)], M⟩]
        = .ok (T.slice0.map normalize) ∧
     transformer_with_precedence OUTPUT_TYPE_PRECENDENCE (some .Cls) [⟨[(name, T)], M⟩]
        = .ok (T.slice0.map normalize)) ∧
    transformer_with_precedence OUTPUT_TYPE_PRECENDENCE none
      [⟨[(("last_hidden_state"), (⟨[1, 1, 4], [1, 2, 3, 4]⟩ : TensorF))], ⟨1, 1, [1]⟩⟩]
      = .ok [[1 / Real.sqrt 30, 2 / Real.sqrt 30, 3 / Real.sqrt 30, 4 / Real.sqrt 30]] := by
  obtain ⟨sh, dt⟩ := T
  simp only [TensorF.mk.injEq] at hsh ⊢
  subst hsh
  simp only at hd
  refine ⟨⟨rfl, ?_⟩, ?_⟩
  · have hspec := slice0_spec hs hd
    have hrows : (TensorF.mk [b, h] ((TensorF.mk [b, s, h] dt).slice0.flatten)).rows2
        = (TensorF.mk [b, s, h] dt).slice0 := by
      have hgen : ∀ ls : List (List ℚ), ls.length = b → (∀ v ∈ ls, v.length = h) →
          (List.range b).map (fun i => ((ls.flatten).drop (i * h)).take h) = ls := by
        intro ls hlen hmem
        rw [← hlen]
        exact rows_of_flatten ls hmem
      show (List.range b).map
          (fun i => (((TensorF.mk [b, s, h] dt).slice0.flatten).drop (i * h)).take h)
        = (TensorF.mk [b, s, h] dt).slice0
      exact hgen _ hspec.1 hspec.2
    have hsingle : transformer_single OUTPUT_TYPE_PRECENDENCE (some .Cls)
        ⟨[(name, ⟨[b, s, h], dt⟩)], M⟩
        = .ok ((TensorF.mk [b, h]
            ((TensorF.mk [b, s, h] dt).slice0.flatten)).rows2.map normalize) := rfl
    show (List.map (transformer_single OUTPUT_TYPE_PRECENDENCE (some .Cls)) _).foldlM _ _ = _
    rw [List.map_singleton, hsingle, hrows]
    rfl
  · have hnorm : normalize [1, 2, 3, 4]
        = [1 / Real.sqrt 30, 2 / Real.sqrt 30, 3 / Real.sqrt 30, 4 / Real.sqrt 30] := by
      have hs30 : sumSq [1, 2, 3, 4] = 30 := by norm_num [sumSq]
      simp only [normalize, hs30]
      norm_num
    have hconc : transformer_with_precedence OUTPUT_TYPE_PRECENDENCE none
        [⟨[(("last_hidden_state"), (⟨[1, 1, 4], [1, 2, 3, 4]⟩ : TensorF))], ⟨1, 1, [1]⟩⟩]
        = .ok [normalize [1, 2, 3, 4]] := rfl
    rw [hconc, hnorm]

/-- C8 witness: the general rank-3 clause applied to the stub scenario
tensor. -/
theorem c8_witness :
    transformer_with_precedence OUTPUT_TYPE_PRECENDENCE (some .Cls)
      [⟨[(("last_hidden_state"), (⟨[1, 1, 4], [1, 2, 3, 4]⟩ : TensorF))], ⟨1, 1, [1]⟩⟩]
      = .ok ((⟨[1, 1, 4], [1, 2, 3, 4]⟩ : TensorF).slice0.map normalize) :=
  (c8_cls_token_rank3 ("last_hidden_state") ⟨[1, 1, 4], [1, 2, 3, 4]⟩ ⟨1, 1, [1]⟩
    1 1 4 rfl (by decide) (by decide)).1.2

/-- C7: the `token_type_ids` tensor is sent to inference iff the model
graph declares that input — a property computed once at construction —
and the tensor is built (and shape-checked) for every batch even when it
is not sent: with the flag off, an inconsistent `type_ids` length still
fails the batch with a `ShapeError`. -/
theorem c7_token_type_ids_conditional :
    (∀ (te : TextEmbedding) (ids mask typeids : Tensor2),
      ((("token_type_ids"), typeids) ∈ sessionInputs te ids mask typeids
        ↔ te.need_token_type_ids = true)) ∧
    (∀ (tok : Tokenizer) (sess : Session) (p : Option Pooling),
      ((TextEmbedding.new tok sess p).need_token_type_ids = true
        ↔ ("token_type_ids") ∈ sess.inputs)) ∧
    (teNoTypeIds.need_token_type_ids = false ∧
      teNoTypeIds.transformBatch ["x"] = .err .shape) := by
  refine ⟨?_, ?_, ?_, ?_⟩
  · intro te ids mask typeids
    cases h : te.need_token_type_ids <;>
      simp [sessionInputs, h, Prod.ext_iff]
  · intro tok sess p
    simp [TextEmbedding.new, List.any_eq_true]
  · rfl
  · rfl

/-- C7 witness: the conditional-inclusion clause evaluated at a concrete
model. -/
theorem c7_witness :
    ((("token_type_ids"), (⟨1, 1, [0]⟩ : Tensor2)) ∈
        sessionInputs teNoTypeIds ⟨1, 1, [5]⟩ ⟨1, 1, [1]⟩ ⟨1, 1, [0]⟩
      ↔ teNoTypeIds.need_token_type_ids = true) :=
  c7_token_type_ids_conditional.1 teNoTypeIds ⟨1, 1, [5]⟩ ⟨1, 1, [1]⟩ ⟨1, 1, [0]⟩

theorem teFailingTok_transform_panics :
    teFailingTok.transform ["hello"] (some 1)
      = .panicked ("called unwrap on an Err value") := by
  unfold TextEmbedding.transform
  rw [show (some 1).getD DEFAULT_BATCH_SIZE = 1 from rfl]
  rw [if_neg (by decide), chunksOf_cons (by decide) (by decide)]
  rfl

/-- C2 (code behaviour at the failing input): the per-batch closure
`unwrap`s the tokenizer result, so an unencodable input makes `transform`
panic instead of returning a `TokenizationError` result. -/
theorem c2_tokenization_failure_panics :
    (∀ (te : TextEmbedding) (batch : List String),
      (∃ er, te.tokenizer.encode_batch batch true = .error er) →
      te.transformBatch batch = .panicked ("called unwrap on an Err value")) ∧
    teFailingTok.transform ["hello"] (some 1)
      = .panicked ("called unwrap on an Err value") ∧
    (∀ e, teFailingTok.transform ["hello"] (some 1) ≠ .err e) := by
  refine ⟨?_, teFailingTok_transform_panics, ?_⟩
  · intro te batch ⟨er, her⟩
    unfold TextEmbedding.transformBatch
    rw [her]
  · intro e h
    rw [teFailingTok_transform_panics] at h
    exact RunOutcome.noConfusion h

/-- C2 witness: the unwrap-panic clause applied to the failing model. -/
theorem c2_witness :
    teFailingTok.transformBatch ["hello"]
      = .panicked ("called unwrap on an Err value") :=
  c2_tokenization_failure_panics.1 teFailingTok ["hello"] ⟨.tokenization, rfl⟩

theorem teTwoBatch_transform_err :
    teTwoBatch.transform ["a", "b"] (some 1) = .err (.inference ("boom")) := by
  unfold TextEmbedding.transform
  rw [show (some 1).getD DEFAULT_BATCH_SIZE = 1 from rfl]
  rw [if_neg (by decide), chunksOf_cons (by decide) (by decide),
    show (["a", "b"].drop 1) = ["b"] from rfl, chunksOf_cons (by decide) (by decide),
    show (["b"].drop 1) = ([] : List String) from rfl, chunksOf_nil]
  rfl

/-- C3: if the inference call of any single batch fails, `embed` returns
that error and produces no embeddings at all — in the scenario, the
engine fails only on the second of two single-text batches, the first
batch alone succeeds, and `embed` on both texts still returns the bare
error. -/
theorem c3_batch_error_aborts_embed :
    (∀ (te : TextEmbedding) (texts : List String) (B : Option Nat) (e : EmbedError),
      te.transform texts B = .err e → te.embed texts B = .err e) ∧
    teTwoBatch.embed ["a", "b"] (some 1) = .err (.inference ("boom")) ∧
    teTwoBatch.transform ["a"] (some 1)
      = .ok (EmbeddingOutput.new
          [⟨[(("output"), ⟨[1, 1], [7]⟩)], ⟨1, 1, [1]⟩⟩]) := by
  have hgen : ∀ (te : TextEmbedding) (texts : List String) (B : Option Nat) (e : EmbedError),
      te.transform texts B = .err e → te.embed texts B = .err e := by
    intro te texts B e h
    unfold TextEmbedding.embed
    rw [h]
  refine ⟨hgen, hgen _ _ _ _ teTwoBatch_transform_err, ?_⟩
  unfold TextEmbedding.transform
  rw [show (some 1).getD DEFAULT_BATCH_SIZE = 1 from rfl]
  rw [if_neg (by decide), chunksOf_cons (by decide) (by decide),
    show (["a"].drop 1) = ([] : List String) from rfl, chunksOf_nil]
  rfl

/-- C3 witness: the general abort clause applied at the two-batch
scenario. -/
theorem c3_witness :
    teTwoBatch.embed ["a", "b"] (some 1) = .err (.inference ("boom")) :=
  c3_batch_error_aborts_embed.1 teTwoBatch ["a", "b"] (some 1)
    (.inference ("boom")) teTwoBatch_transform_err

theorem except_bind_ok {ε α β : Type} (a : α) (g : α → Except ε β) :
    (Except.ok a : Except ε α) >>= g = g a := rfl

theorem except_pure_eq {ε α : Type} (a : α) :
    (pure a : Except ε α) = .ok a := rfl

theorem flatten_length_const {α : Type} {c : Nat} :
    ∀ ls : List (List α), (∀ l ∈ ls, l.length = c) →
      ls.flatten.length = ls.length * c := by
  intro ls
  induction ls with
  | nil => intro _; simp
  | cons a as ih =>
      intro h
      rw [List.flatten_cons, List.length_append, List.length_cons,
        ih (fun l hl => h l (by simp [hl])), h a (by simp)]
      ring

theorem chunksOf_flatten {α : Type} {B : Nat} (hB : B ≠ 0) :
    ∀ l : List α, (chunksOf B l).flatten = l := by
  have key : ∀ (n : Nat) (l : List α), l.length ≤ n → (chunksOf B l).flatten = l := by
    intro n
    induction n with
    | zero =>
        intro l hl
        have h0 : l = [] := List.length_eq_zero.mp (Nat.le_zero.mp hl)
        subst h0
        rw [chunksOf_nil]
        rfl
    | succ n ih =>
        intro l hl
        rcases eq_or_ne l [] with rfl | hne
        · rw [chunksOf_nil]
          rfl
        · have h1 : 0 < l.length := List.length_pos.mpr hne
          have h2 : 0 < B := Nat.pos_of_ne_zero hB
          rw [chunksOf_cons hB hne, List.flatten_cons,
            ih (l.drop B) (by rw [List.length_drop]; omega),
            List.take_append_drop]
  exact fun l => key l.length l le_rfl

theorem chunksOf_length {α : Type} {B : Nat} (hB : B ≠ 0) :
    ∀ l : List α, (chunksOf B l).length = (l.length + B - 1) / B := by
  have hBpos : 0 < B := Nat.pos_of_ne_zero hB
  have key : ∀ (n : Nat) (l : List α), l.length ≤ n →
      (chunksOf B l).length = (l.length + B - 1) / B := by
    intro n
    induction n with
    | zero =>
        intro l hl
        have h0 : l = [] := List.length_eq_zero.mp (Nat.le_zero.mp hl)
        subst h0
        rw [chunksOf_nil]
        simp [Nat.div_eq_of_lt (show B - 1 < B by omega)]
    | succ n ih =>
        intro l hl
        rcases eq_or_ne l [] with rfl | hne
        · rw [chunksOf_nil]
          simp [Nat.div_eq_of_lt (show B - 1 < B by omega)]
        · have h1 : 0 < l.length := List.length_pos.mpr hne
          rw [chunksOf_cons hB hne, List.length_cons,
            ih (l.drop B) (by rw [List.length_drop]; omega), List.length_drop]
          rw [show l.length + B - 1 = (l.length - 1) + B by omega,
            Nat.add_div_right _ hBpos]
          rcases le_or_lt B l.length with hBl | hlB
          · rw [show l.length - B + B - 1 = l.length - 1 by omega]
          · rw [show l.length - B = 0 by omega]
            rw [Nat.div_eq_of_lt (show 0 + B - 1 < B by omega),
              Nat.div_eq_of_lt (show l.length - 1 < B by omega)]
  exact fun l => key l.length l le_rfl

theorem chunksOf_mem_bounds {α : Type} {B : Nat} (hB : B ≠ 0) :
    ∀ (l : List α), ∀ c ∈ chunksOf B l, 1 ≤ c.length ∧ c.length ≤ B := by
  have key : ∀ (n : Nat) (l : List α), l.length ≤ n →
      ∀ c ∈ chunksOf B l, 1 ≤ c.length ∧ c.length ≤ B := by
    intro n
    induction n with
    | zero =>
        intro l hl c hc
        have h0 : l = [] := List.length_eq_zero.mp (Nat.le_zero.mp hl)
        subst h0
        rw [chunksOf_nil] at hc
        cases hc
    | succ n ih =>
        intro l hl c hc
        rcases eq_or_ne l [] with rfl | hne
        · rw [chunksOf_nil] at hc
          cases hc
        · have h1 : 0 < l.length := List.length_pos.mpr hne
          have h2 : 0 < B := Nat.pos_of_ne_zero hB
          rw [chunksOf_cons hB hne] at hc
          rcases List.mem_cons.mp hc with rfl | hc'
          · rw [List.length_take]
            omega
          · exact ih (l.drop B) (by rw [List.length_drop]; omega) c hc'
  exact fun l => key l.length l le_rfl

theorem collectOutcomes_panicked {α : Type} :
    ∀ {os : List (RunOutcome α)} {m : String},
      collectOutcomes os = .panicked m → RunOutcome.panicked m ∈ os := by
  intro os
  induction os with
  | nil => intro m h; cases h
  | cons o rest ih =>
      intro m h
      cases o with
      | panicked m0 =>
          rw [show collectOutcomes (RunOutcome.panicked m0 :: rest)
              = .panicked m0 from rfl] at h
          cases h
          exact List.mem_cons_self _ _
      | err e =>
          rw [show collectOutcomes (RunOutcome.err e :: rest)
              = .err e from rfl] at h
          cases h
      | ok a =>
          rw [show collectOutcomes (RunOutcome.ok a :: rest)
              = (match collectOutcomes rest with
                 | .ok l => RunOutcome.ok (a :: l)
                 | .err e => .err e
                 | .panicked m => .panicked m) from rfl] at h
          cases hr : collectOutcomes rest with
          | ok l => rw [hr] at h; cases h
          | err e => rw [hr] at h; cases h
          | panicked m1 =>
              rw [hr] at h
              cases h
              exact List.mem_cons_of_mem _ (ih hr)

theorem collectOutcomes_map_ok {α β : Type} (g : α → RunOutcome β) (v : α → β) :
    ∀ (xs : List α), (∀ x ∈ xs, g x = .ok (v x)) →
      collectOutcomes (xs.map g) = .ok (xs.map v) := by
  intro xs
  induction xs with
  | nil => intro _; rfl
  | cons a as ih =>
      intro h
      rw [List.map_cons, List.map_cons]
      rw [show collectOutcomes (g a :: as.map g)
          = (match g a with
             | .panicked m => .panicked m
             | .err e => .err e
             | .ok x =>
                 match collectOutcomes (as.map g) with
                 | .ok l => RunOutcome.ok (x :: l)
                 | .err e => .err e
                 | .panicked m => .panicked m) from rfl]
      rw [h a (by simp), ih (fun x hx => h x (by simp [hx]))]

/-- C10: with any batch size `B ≥ 1`, every chunk handed to a batch worker
is non-empty and no larger than `B`; consequently, whenever the tokenizer
honours its contract of one encoding per input, `transform` can never hit
the `encodings[0]` out-of-bounds panic. -/
theorem c10_chunks_nonempty (B : Nat) (texts : List String) (hB : 1 ≤ B)
    (te : TextEmbedding)
    (htok : ∀ (ts : List String) (l : List Encoding),
      te.tokenizer.encode_batch ts true = .ok l → l.length = ts.length) :
    (∀ c ∈ chunksOf B texts, 1 ≤ c.length ∧ c.length ≤ B) ∧
    te.transform texts (some B) ≠ .panicked ("index out of bounds") := by
  have hB0 : B ≠ 0 := by omega
  refine ⟨chunksOf_mem_bounds hB0 texts, ?_⟩
  intro habs
  unfold TextEmbedding.transform at habs
  rw [show (some B).getD DEFAULT_BATCH_SIZE = B from rfl, if_neg hB0] at habs
  have hcoll : collectOutcomes ((chunksOf B texts).map te.transformBatch)
      = .panicked ("index out of bounds") := by
    cases hc : collectOutcomes ((chunksOf B texts).map te.transformBatch) with
    | ok l => rw [hc] at habs; cases habs
    | err e => rw [hc] at habs; cases habs
    | panicked m => rw [hc] at habs; cases habs; rfl
  have hmem := collectOutcomes_panicked hcoll
  obtain ⟨c, hcmem, hcpan⟩ := List.mem_map.mp hmem
  have hcne : c ≠ [] := by
    have := (chunksOf_mem_bounds hB0 texts c hcmem).1
    intro h0
    rw [h0] at this
    simp at this
  unfold TextEmbedding.transformBatch at hcpan
  cases htokc : te.tokenizer.encode_batch c true with
  | error er =>
      rw [htokc] at hcpan
      have hpp : RunOutcome.panicked ("called unwrap on an Err value")
          = RunOutcome.panicked ("index out of bounds") := hcpan
      simp at hpp
  | ok encodings =>
      rw [htokc] at hcpan
      cases hencs : encodings with
      | nil =>
          have hlen := htok c encodings htokc
          rw [hencs] at hlen
          have : c = [] := List.length_eq_zero.mp hlen.symm
          exact hcne this
      | cons e0 rest =>
          rw [hencs] at hcpan
          have hcpan' : exceptToOutcome (te.runBatch c (e0 :: rest) e0.len)
              = .panicked ("index out of bounds") := hcpan
          cases hrb : te.runBatch c (e0 :: rest) e0.len with
          | ok x => rw [hrb] at hcpan'; simp [exceptToOutcome] at hcpan'
          | error e => rw [hrb] at hcpan'; simp [exceptToOutcome] at hcpan'

/-- C10 witness: the chunk bounds and panic-freedom at a concrete model
and input. -/
theorem c10_witness :
    (∀ c ∈ chunksOf 2 ["a", "b", "c"], 1 ≤ c.length ∧ c.length ≤ 2) ∧
    teTwoBatch.transform ["a", "b", "c"] (some 2)
      ≠ .panicked ("index out of bounds") :=
  c10_chunks_nonempty 2 ["a", "b", "c"] (by omega) teTwoBatch
    (by
      intro ts l h
      have hl : l = ts.map (fun t => if t = "b" then ⟨[2], [1], [0]⟩ else ⟨[1], [1], [0]⟩) := by
        have : Except.ok (ts.map (fun t =>
            if t = "b" then (⟨[2], [1], [0]⟩ : Encoding) else ⟨[1], [1], [0]⟩))
            = (Except.ok l : Except EmbedError (List Encoding)) := h
        cases this
        rfl
      rw [hl, List.length_map])

theorem range_map_take_drop {α : Type} {n c : Nat} (ls : List (List α))
    (hlen : ls.length = n) (hmem : ∀ l ∈ ls, l.length = c) :
    (List.range n).map (fun i => ((ls.flatten).drop (i * c)).take c) = ls := by
  subst hlen
  exact rows_of_flatten ls hmem

theorem perRowTE_runBatch (E : String → Encoding) (f : List ℤ → List ℚ)
    (H L : Nat)
    (hE : ∀ t, (E t).ids.length = L ∧ (E t).attention_mask.length = L
      ∧ (E t).type_ids.length = L)
    (c : List String) :
    (perRowTE E f H).runBatch c (c.map E) L = .ok (perRowSBO E f H L c) := by
  have hm1 : (c.map E).map (fun e => e.ids) = c.map (fun t => (E t).ids) := by
    simp [List.map_map, Function.comp]
  have hm2 : (c.map E).map (fun e => e.attention_mask)
      = c.map (fun t => (E t).attention_mask) := by
    simp [List.map_map, Function.comp]
  have hm3 : (c.map E).map (fun e => e.type_ids) = c.map (fun t => (E t).type_ids) := by
    simp [List.map_map, Function.comp]
  have hl1 : ((c.map E).map (fun e => e.ids)).flatten.length = c.length * L := by
    rw [hm1, flatten_length_const _ (by
      intro l hl
      obtain ⟨t, _, rfl⟩ := List.mem_map.mp hl
      exact (hE t).1), List.length_map]
  have hl2 : ((c.map E).map (fun e => e.attention_mask)).flatten.length
      = c.length * L := by
    rw [hm2, flatten_length_const _ (by
      intro l hl
      obtain ⟨t, _, rfl⟩ := List.mem_map.mp hl
      exact (hE t).2.1), List.length_map]
  have hl3 : ((c.map E).map (fun e => e.type_ids)).flatten.length
      = c.length * L := by
    rw [hm3, flatten_length_const _ (by
      intro l hl
      obtain ⟨t, _, rfl⟩ := List.mem_map.mp hl
      exact (hE t).2.2), List.length_map]
  have f1 : from_shape_vec c.length L (((c.map E).map (fun e => e.ids)).flatten)
      = .ok ⟨c.length, L, (((c.map E).map (fun e => e.ids)).flatten)⟩ := by
    unfold from_shape_vec
    rw [if_pos hl1]
  have f2 : from_shape_vec c.length L
        (((c.map E).map (fun e => e.attention_mask)).flatten)
      = .ok ⟨c.length, L, (((c.map E).map (fun e => e.attention_mask)).flatten)⟩ := by
    unfold from_shape_vec
    rw [if_pos hl2]
  have f3 : from_shape_vec c.length L (((c.map E).map (fun e => e.type_ids)).flatten)
      = .ok ⟨c.length, L, (((c.map E).map (fun e => e.type_ids)).flatten)⟩ := by
    unfold from_shape_vec
    rw [if_pos hl3]
  have hrows : (Tensor2.mk c.length L
        (((c.map E).map (fun e => e.ids)).flatten)).rowsOf
      = c.map (fun t => (E t).ids) := by
    show (List.range c.length).map
        (fun i => ((((c.map E).map (fun e => e.ids)).flatten).drop (i * L)).take L)
      = c.map (fun t => (E t).ids)
    rw [hm1]
    exact range_map_take_drop _ (List.length_map _ _) (by
      intro l hl
      obtain ⟨t, _, rfl⟩ := List.mem_map.mp hl
      exact (hE t).1)
  have step1 : (perRowTE E f H).runBatch c (c.map E) L
      = Except.ok (SingleBatchOutput.mk
          [(("output"), TensorF.mk [c.length, H]
            (((Tensor2.mk c.length L
              (((c.map E).map (fun e => e.ids)).flatten)).rowsOf.map f).flatten))]
          (Tensor2.mk c.length L
            (((c.map E).map (fun e => e.attention_mask)).flatten))) := by
    simp only [TextEmbedding.runBatch, f1, f2, f3, except_bind_ok]
    rfl
  rw [step1, hrows, hm2]
  unfold perRowSBO
  rw [List.map_map]
  rfl

theorem perRowTE_transformBatch (E : String → Encoding) (f : List ℤ → List ℚ)
    (H L : Nat)
    (hE : ∀ t, (E t).ids.length = L ∧ (E t).attention_mask.length = L
      ∧ (E t).type_ids.length = L)
    (c : List String) (hne : c ≠ []) :
    (perRowTE E f H).transformBatch c = .ok (perRowSBO E f H L c) := by
  obtain ⟨t0, ts, rfl⟩ := List.exists_cons_of_ne_nil hne
  rw [show (perRowTE E f H).transformBatch (t0 :: ts)
      = exceptToOutcome ((perRowTE E f H).runBatch (t0 :: ts)
          ((t0 :: ts).map E) ((E t0).len)) from rfl]
  rw [show (E t0).len = L from (hE t0).1]
  rw [perRowTE_runBatch E f H L hE (t0 :: ts)]
  rfl

theorem except_map_ok {ε α β : Type} (g : α → β) (a : α) :
    (Except.ok a : Except ε α).map g = .ok (g a) := rfl

theorem perRowSBO_single (E : String → Encoding) (f : List ℤ → List ℚ)
    (H L : Nat) (hF : ∀ r, (f r).length = H) (c : List String) :
    transformer_single OUTPUT_TYPE_PRECENDENCE none (perRowSBO E f H L c)
      = .ok (c.map (fun t => normalize (f (E t).ids))) := by
  have hrows2 : (TensorF.mk [c.length, H]
        ((c.map (fun t => f (E t).ids)).flatten)).rows2
      = c.map (fun t => f (E t).ids) := by
    show (List.range c.length).map
        (fun i => (((c.map (fun t => f (E t).ids)).flatten).drop (i * H)).take H)
      = c.map (fun t => f (E t).ids)
    exact range_map_take_drop _ (List.length_map _ _) (by
      intro l hl
      obtain ⟨t, _, rfl⟩ := List.mem_map.mp hl
      exact hF _)
  show Except.ok (((TensorF.mk [c.length, H]
      ((c.map (fun t => f (E t).ids)).flatten)).rows2).map normalize) = _
  rw [hrows2, List.map_map]
  rfl

theorem foldlM_all_ok (vs : List (List Embedding)) :
    ∀ init : List Embedding,
      ((vs.map (fun v => (Except.ok v : Except EmbedError (List Embedding)))).foldlM
        (fun acc res => res.map (fun rows => acc ++ rows)) init)
        = .ok (init ++ vs.flatten) := by
  induction vs with
  | nil =>
      intro init
      show Except.ok init = _
      rw [List.flatten_nil, List.append_nil]
  | cons v vsl ih =>
      intro init
      rw [List.map_cons]
      simp only [List.foldlM_cons, except_map_ok, except_bind_ok]
      rw [ih (init ++ v), List.flatten_cons, List.append_assoc]

/-- C4: for `N` texts and any batch size `B ≥ 1`, the input is split into
`⌈N/B⌉` contiguous, order-preserving chunks of size between 1 and `B`
that concatenate back to the input (zero chunks for `N = 0`); and for a
per-row deterministic engine a successful `embed` returns exactly one
embedding per text, in input order, with a value independent of `B`. -/
theorem c4_batch_plan_and_order (E : String → Encoding) (f : List ℤ → List ℚ)
    (H L : Nat) (texts : List String) (B : Nat) (hB : 1 ≤ B)
    (hE : ∀ t, (E t).ids.length = L ∧ (E t).attention_mask.length = L
      ∧ (E t).type_ids.length = L)
    (hF : ∀ r, (f r).length = H) :
    ((chunksOf B texts).length = (texts.length + B - 1) / B ∧
     (chunksOf B texts).flatten = texts ∧
     (∀ c ∈ chunksOf B texts, 1 ≤ c.length ∧ c.length ≤ B)) ∧
    (perRowTE E f H).embed texts (some B)
      = .ok (texts.map (fun t => normalize (f (E t).ids))) := by
  have hB0 : B ≠ 0 := by omega
  refine ⟨⟨chunksOf_length hB0 texts, chunksOf_flatten hB0 texts,
    chunksOf_mem_bounds hB0 texts⟩, ?_⟩
  have hbatch : ∀ c ∈ chunksOf B texts,
      (perRowTE E f H).transformBatch c = .ok (perRowSBO E f H L c) := by
    intro c hc
    have hcne : c ≠ [] := by
      have h1 := (chunksOf_mem_bounds hB0 texts c hc).1
      intro h0
      rw [h0] at h1
      simp at h1
    exact perRowTE_transformBatch E f H L hE c hcne
  have htr : (perRowTE E f H).transform texts (some B)
      = .ok (EmbeddingOutput.new ((chunksOf B texts).map (perRowSBO E f H L))) := by
    unfold TextEmbedding.transform
    rw [show (some B).getD DEFAULT_BATCH_SIZE = B from rfl, if_neg hB0]
    rw [collectOutcomes_map_ok _ (perRowSBO E f H L) (chunksOf B texts) hbatch]
  have hmap : ((chunksOf B texts).map (perRowSBO E f H L)).map
        (transformer_single OUTPUT_TYPE_PRECENDENCE none)
      = ((chunksOf B texts).map
          (fun c => c.map (fun t => normalize (f (E t).ids)))).map
          (fun v => (Except.ok v : Except EmbedError (List Embedding))) := by
    rw [List.map_map, List.map_map]
    apply List.map_congr_left
    intro c _
    exact perRowSBO_single E f H L hF c
  have hexp : transformer_with_precedence OUTPUT_TYPE_PRECENDENCE none
        ((chunksOf B texts).map (perRowSBO E f H L))
      = .ok (texts.map (fun t => normalize (f (E t).ids))) := by
    unfold transformer_with_precedence
    rw [hmap, foldlM_all_ok, List.nil_append]
    rw [← List.map_flatten, chunksOf_flatten hB0]
  calc (perRowTE E f H).embed texts (some B)
      = exceptToOutcome (transformer_with_precedence OUTPUT_TYPE_PRECENDENCE none
          ((chunksOf B texts).map (perRowSBO E f H L))) := by
        unfold TextEmbedding.embed
        rw [htr]
        rfl
    _ = .ok (texts.map (fun t => normalize (f (E t).ids))) := by
        rw [hexp]
        rfl

/-- C4 witness: the batch plan and order-preserving embedding at a
concrete three-text input with batch size 2. -/
theorem c4_witness :
    ((chunksOf 2 ["a", "b", "c"]).length = (["a", "b", "c"].length + 2 - 1) / 2 ∧
     (chunksOf 2 ["a", "b", "c"]).flatten = ["a", "b", "c"] ∧
     (∀ c ∈ chunksOf 2 ["a", "b", "c"], 1 ≤ c.length ∧ c.length ≤ 2)) ∧
    (perRowTE encConst fHead 1).embed ["a", "b", "c"] (some 2)
      = .ok (["a", "b", "c"].map (fun t => normalize (fHead (encConst t).ids))) :=
  c4_batch_plan_and_order encConst fHead 1 1 ["a", "b", "c"] 2 (by omega)
    (fun _ => ⟨rfl, rfl, rfl⟩) (fun _ => rfl)

end Fastembed
